import Mathlib

/-!
Verification of youtube2mp3 (single-file Python tool `youtube2mp3.py`).

The development shallowly embeds the repository's own logic:
* `URLExtractor.extract_from_file` (regex scan + platform filter + set construction),
* `ArgumentValidator.validate_rate_limit` (Python `int()` parsing + positivity check),
* `YouTubeDownloader._get_download_options` (the yt-dlp option dictionary),
* `YouTubeDownloader.download` and the sequential batch loop of `YouTubeToMP3._process_file`,
* `MetadataManager.add_metadata` / `add_thumbnail` and `YouTubeDownloader._process_metadata`,
* `ThreadedDownloader` (`_worker` / `start`) as a small-step transition system over
  a shared queue and per-worker program counters,
* the exit-code behaviour of `main`.

External collaborators (yt-dlp network work, mutagen's on-disk ID3 serialization, the
filesystem) are modelled by explicit inputs/outcomes; everything the repository itself
computes is translated directly from the source.
-/

namespace Y2MP3

/-! ## URL Extractor (`URLExtractor.extract_from_file`, youtube2mp3.py lines 405-421)

The Python code reads the file's text and applies
`(http|https)://([\w_-]+(?:(?:\.[\w_-]+)+))([\w.,@?^=%&:\/~+#-]*[\w@?^=%&\/~+#-])?`
with `re.finditer`, keeping matches containing `'youtu'` as a set.
The matcher below is specialized to exactly this pattern (Python `\w` modelled on
ASCII word characters).  Quantifiers are greedy; since `.` is not a host character
and the path tail class is a subset of the path body class, the only backtracking
the pattern needs is the ordered `http`/`https` alternative and trimming the path
to its last tail-class character, both implemented directly. -/

/-- ASCII model of Python's `\w`: letters, digits, underscore. -/
def isWordChar (c : Char) : Bool := c.isAlphanum || c = '_'

/-- Character class `[\w_-]` (host labels). -/
def hostChar (c : Char) : Bool := isWordChar c || c = '-'

/-- Character class `[\w.,@?^=%&:\/~+#-]` (path body). -/
def pathAllChar (c : Char) : Bool :=
  isWordChar c || c = '.' || c = ',' || c = '@' || c = '?' || c = '^' || c = '=' ||
    c = '%' || c = '&' || c = ':' || c = '/' || c = '~' || c = '+' || c = '#' || c = '-'

/-- Character class `[\w@?^=%&\/~+#-]` (allowed final path character). -/
def pathEndChar (c : Char) : Bool :=
  isWordChar c || c = '@' || c = '?' || c = '^' || c = '=' ||
    c = '%' || c = '&' || c = '/' || c = '~' || c = '+' || c = '#' || c = '-'

/-- Match a literal character sequence, returning the remaining input. -/
def stripLit : List Char → List Char → Option (List Char)
  | [], s => some s
  | _ :: _, [] => none
  | p :: ps, c :: cs => if p = c then stripLit ps cs else none

/-- Greedy `(?:\.[\w_-]+)+`: one or more groups of a dot followed by a non-empty
host-character run.  Fuel bounds the recursion depth; each group consumes at
least two characters, so `length + 1` fuel never runs out. -/
def dotGroupsFuel : Nat → List Char → Option (List Char × List Char)
  | 0, _ => none
  | fuel + 1, s =>
    match s with
    | '.' :: rest =>
      let r := rest.takeWhile hostChar
      if r.isEmpty then none
      else
        let rest' := rest.dropWhile hostChar
        match dotGroupsFuel fuel rest' with
        | some (m, rest'') => some ('.' :: (r ++ m), rest'')
        | none => some ('.' :: r, rest')
    | _ => none

/-- Greedy `([\w_-]+(?:(?:\.[\w_-]+)+))`: a host with at least one dotted label. -/
def matchHost (s : List Char) : Option (List Char × List Char) :=
  let r1 := s.takeWhile hostChar
  if r1.isEmpty then none
  else
    let s1 := s.dropWhile hostChar
    match dotGroupsFuel (s1.length + 1) s1 with
    | some (m, rest) => some (r1 ++ m, rest)
    | none => none

/-- Greedy optional `([\w.,@?^=%&:\/~+#-]*[\w@?^=%&\/~+#-])?`: take the maximal
path-body run, then trim it back to the last allowed final character (the empty
match if there is none). -/
def matchPath (s : List Char) : List Char × List Char :=
  let r := s.takeWhile pathAllChar
  let m := (r.reverse.dropWhile (fun c => !pathEndChar c)).reverse
  (m, s.drop m.length)

/-- Attempt the pattern at the start of `s` with a fixed scheme literal. -/
def matchAfterScheme (scheme : List Char) (s : List Char) : Option (List Char × List Char) :=
  match stripLit scheme s with
  | none => none
  | some s1 =>
    match stripLit [':', '/', '/'] s1 with
    | none => none
    | some s2 =>
      match matchHost s2 with
      | none => none
      | some (host, s3) =>
        let (path, s4) := matchPath s3
        some (scheme ++ [':', '/', '/'] ++ host ++ path, s4)

/-- Attempt the whole pattern at the start of `s`: ordered alternative
`(http|https)` followed by the rest of the pattern. -/
def matchAt (s : List Char) : Option (List Char × List Char) :=
  match matchAfterScheme ['h', 't', 't', 'p'] s with
  | some r => some r
  | none => matchAfterScheme ['h', 't', 't', 'p', 's'] s

/-- Model of `re.finditer`: scan left to right, emitting non-overlapping leftmost matches.
Every iteration consumes at least one character, so `length` fuel suffices. -/
def finditerFuel : Nat → List Char → List (List Char)
  | 0, _ => []
  | _ + 1, [] => []
  | fuel + 1, c :: rest =>
    match matchAt (c :: rest) with
    | some (m, s') => m :: finditerFuel fuel s'
    | none => finditerFuel fuel rest

/-- All matches of the URL pattern in `s`, in order. -/
def finditer (s : List Char) : List (List Char) := finditerFuel s.length s

/-- Is `pat` a leading segment of `s`? (executable) -/
def isLeadingSeg : List Char → List Char → Bool
  | [], _ => true
  | _ :: _, [] => false
  | p :: ps, c :: cs => p = c && isLeadingSeg ps cs

/-- Python's `sub in str` membership test, on character lists. -/
def containsSub (pat : List Char) : List Char → Bool
  | [] => isLeadingSeg pat []
  | c :: rest => isLeadingSeg pat (c :: rest) || containsSub pat rest

/-- The platform-identifying substring `'youtu'`. -/
def youtuChars : List Char := ['y', 'o', 'u', 't', 'u']

/-- Model of `URLExtractor.extract_from_file`: the set (here: deduplicated list) of regex
matches that contain `'youtu'`.  The file's text content is the input. -/
def extract_from_file (content : String) : List String :=
  (((finditer content.data).filter (fun m => containsSub youtuChars m)).map
    (fun m => String.mk m)).dedup

/-! ## Threaded Coordinator (`ThreadedDownloader`, youtube2mp3.py lines 353-402)

`_worker` runs `while not self.url_queue.empty(): url = self.url_queue.get(); download(url)`.
We model the pool as a small-step transition system: the shared state is the FIFO
queue; each worker has a program counter recording whether it is about to run the
`empty()` test (`atCheck`), is about to run the blocking `get()` (`atClaim`), or has
left the loop (`finished`), plus the list of URLs it has claimed (and downloaded —
`download` touches no shared state, so it is folded into the claim step).
`Queue.get()` with its default arguments blocks when the queue is empty: in the
model a worker at `atClaim` with an empty queue has no enabled transition. -/

inductive WStatus
  | atCheck
  | atClaim
  | finished
deriving DecidableEq

structure Worker where
  pc : WStatus
  claimed : List String
deriving DecidableEq

structure PoolState where
  queue : List String
  workers : List Worker
deriving DecidableEq

/-- One atomic action of a single worker: the `empty()` test (branching on the
queue), or the atomic `get()` (only enabled when the queue is non-empty; a
blocked `get()` has no transition), combined with `download` and `task_done`. -/
def workerStep (q : List String) (w : Worker) : Option (List String × Worker) :=
  match w.pc with
  | .atCheck =>
    if q.isEmpty then some (q, { w with pc := .finished })
    else some (q, { w with pc := .atClaim })
  | .atClaim =>
    match q with
    | [] => none
    | u :: rest => some (rest, { pc := .atCheck, claimed := u :: w.claimed })
  | .finished => none

/-- Schedule worker `i` for one atomic action. -/
def step (s : PoolState) (i : Nat) : Option PoolState :=
  match s.workers[i]? with
  | none => none
  | some w =>
    match workerStep s.queue w with
    | none => none
    | some (q', w') => some { queue := q', workers := s.workers.set i w' }

/-- The interleaving relation: some worker performs one atomic action. -/
def Steps (s s' : PoolState) : Prop := ∃ i, step s i = some s'

/-- State after `__init__` enqueued all URLs and `start` spawned `n` workers. -/
def initState (urls : List String) (n : Nat) : PoolState :=
  { queue := urls, workers := List.replicate n { pc := .atCheck, claimed := [] } }

/-- States reachable under some interleaving of the `n` workers. -/
def Reachable (urls : List String) (n : Nat) (s : PoolState) : Prop :=
  Relation.ReflTransGen Steps (initState urls n) s

/-- No worker can take a step: each is either `finished` or blocked in `get()`. -/
def Terminal (s : PoolState) : Prop := ∀ i, step s i = none

/-- All URLs claimed (and hence downloaded) across the pool. -/
def allClaimed (s : PoolState) : List String := (s.workers.map Worker.claimed).flatten

/-! ## Metadata Post-Processor (`MetadataManager` lines 105-178,
`YouTubeDownloader._process_metadata` lines 294-332)

The ID3 container and the sidecar files of one download are modelled explicitly;
mutagen's serialization is the external collaborator, so a tag write is a field
update.  `FsState` is the slice of the filesystem relevant to one output file:
the MP3 (with its tags) at `<base>.mp3`, the thumbnail at `<base>.jpg`, and the
info JSON at `<base>.info.json`. -/

structure ID3Tags where
  tit2 : Option String
  tpe1 : Option String
  talb : Option String
  apic : Option (List Nat)
deriving DecidableEq

def emptyTags : ID3Tags := { tit2 := none, tpe1 := none, talb := none, apic := none }

structure InfoDict where
  title : Option String
  uploader : Option String
  album : Option String
deriving DecidableEq

structure FsState where
  mp3 : Option ID3Tags
  thumb : Option (List Nat)
  infoJson : Bool
deriving DecidableEq

/-- Model of `MetadataManager.add_metadata`: set the TIT2, TPE1 and TALB frames
(`tags.add` replaces an existing frame of the same type). -/
def MetadataManager.add_metadata (tags : ID3Tags) (title artist album : String) : ID3Tags :=
  { tags with tit2 := some title, tpe1 := some artist, talb := some album }

/-- Model of `MetadataManager.add_thumbnail`: embed the image bytes as the APIC frame. -/
def MetadataManager.add_thumbnail (tags : ID3Tags) (data : List Nat) : ID3Tags :=
  { tags with apic := some data }

/-- Model of `os.path.basename` on a POSIX path: everything after the last slash. -/
def basenameChars (s : List Char) : List Char :=
  (s.reverse.takeWhile (fun c => c ≠ '/')).reverse

def basename (s : String) : String := String.mk (basenameChars s.data)

/-- Index of the last occurrence of `c`, or `-1` (Python `str.rfind`). -/
def rfind (c : Char) (cs : List Char) : Int :=
  match cs.reverse.findIdx? (fun d => d = c) with
  | none => -1
  | some j => (cs.length : Int) - 1 - j

/-- Model of `os.path.splitext(p)[0]`: drop the extension at the last dot of the
basename, except that leading dots of the basename never start an extension. -/
def splitextRoot (p : String) : String :=
  let cs := p.data
  let sepIndex := rfind '/' cs
  let dotIndex := rfind '.' cs
  if dotIndex > sepIndex then
    let filenameStart := (sepIndex + 1).toNat
    let dotPos := dotIndex.toNat
    if ((cs.drop filenameStart).take (dotPos - filenameStart)).all (fun c => c == '.') then p
    else String.mk (cs.take dotPos)
  else p

inductive MetaOutcome
  | skipped
  | warnedMissing
  | ok
deriving DecidableEq

/-- Model of `YouTubeDownloader._process_metadata`: no-op when metadata is disabled; a
logged warning when the MP3 is missing; otherwise write TIT2/TPE1/TALB with the
`info_dict` fallbacks, embed the thumbnail as APIC when the sidecar exists, and
delete the thumbnail and info-JSON sidecars. -/
def process_metadata (addMeta : Bool) (info : InfoDict) (filename : String) (fs : FsState) :
    FsState × MetaOutcome :=
  if !addMeta then (fs, .skipped)
  else
    let baseFilename := splitextRoot filename
    match fs.mp3 with
    | none => (fs, .warnedMissing)
    | some tags =>
      let title := info.title.getD (basename baseFilename)
      let artist := info.uploader.getD "YouTube"
      let album := info.album.getD "YouTube to MP3"
      let tags1 := MetadataManager.add_metadata tags title artist album
      match fs.thumb with
      | some data =>
        let tags2 := MetadataManager.add_thumbnail tags1 data
        ({ mp3 := some tags2, thumb := none, infoJson := false }, .ok)
      | none =>
        ({ mp3 := some tags1, thumb := none, infoJson := false }, .ok)

/-! ## Downloader (`YouTubeDownloader.download` lines 334-350) and the batch
loop (`YouTubeToMP3._process_file` lines 632-666)

The outcome of `ydl.extract_info` — the external extraction library — is an
input: either it returns an info record (possibly `None`) or it raises
`yt_dlp.utils.DownloadError`, the only exception `download` catches. -/

inductive ExtractOutcome
  | extracted (info : Option InfoDict)
  | downloadError (msg : String)
deriving DecidableEq

/-- Model of `YouTubeDownloader.download`: on a `DownloadError` log and return `False`;
otherwise run `_process_metadata` when an info record came back, and return
`True`. -/
def download (outcome : ExtractOutcome) (addMeta : Bool) (filename : String) (fs : FsState) :
    Bool × FsState :=
  match outcome with
  | .extracted (some info) => (true, (process_metadata addMeta info filename fs).1)
  | .extracted none => (true, fs)
  | .downloadError _ => (false, fs)

/-- The sequential branch of `_process_file`: `for url in urls:
downloader.download(url)` — every URL is processed, results are not inspected. -/
def processFileSeq (outcomeOf : String → ExtractOutcome) (addMeta : Bool)
    (filenameOf : String → String) (fsOf : String → FsState) (urls : List String) : List Bool :=
  urls.map (fun u => (download (outcomeOf u) addMeta (filenameOf u) (fsOf u)).1)

/-! ## Batch-mode dispatch and process exit behaviour
(`YouTubeToMP3._process_file` lines 632-666, `main` lines 680-689) -/

inductive BatchMode
  | threadedPool (numThreads : Nat)
  | singleThreaded
deriving DecidableEq

/-- Dispatch of `_process_file`: `if self.args.threads > 1:` use `ThreadedDownloader` else the sequential loop. -/
def chooseBatchMode (threads : Int) : BatchMode :=
  if threads > 1 then .threadedPool threads.toNat else .singleThreaded

inductive FileRunAction
  | noUrlsFound
  | ranBatch (mode : BatchMode)
deriving DecidableEq

/-- Model of `_process_file`: extract URLs; when none qualify, log an error and return
(no exception is raised); otherwise dispatch on the thread count. -/
def processFileRun (content : String) (threads : Int) : FileRunAction :=
  let urls := extract_from_file content
  if urls.isEmpty then .noUrlsFound else .ranBatch (chooseBatchMode threads)

inductive RunEvent
  | completed
  | interrupted
  | uncaught (msg : String)
deriving DecidableEq

/-- Model of `main`: `KeyboardInterrupt` and any other exception exit with status 1;
a normal return from `app.run()` exits with status 0. -/
def mainExitCode : RunEvent → Nat
  | .completed => 0
  | .interrupted => 1
  | .uncaught _ => 1

/-- How a batch run of `_process_file` ends: both the no-URLs branch and the
download branches return normally, so the run event is `completed` either way. -/
def fileRunEvent (content : String) (threads : Int) : RunEvent :=
  match processFileRun content threads with
  | .noUrlsFound => .completed
  | .ranBatch _ => .completed

/-! ## Argument Validator (`ArgumentValidator.validate_rate_limit` lines 464-473)

`int(rate)` is modelled by `pyParseInt` (optional surrounding whitespace,
optional sign, decimal digits with single underscores allowed between digits).
`int()` failing raises `ValueError`, caught and converted to the invalid-rate
error; a non-positive parse raises `ArgumentTypeError`, which is not a
`ValueError` and therefore propagates out of the `try` block. -/

def digitVal (c : Char) : Nat := c.toNat - 48

def pyDigitsAux (acc : Nat) : List Char → Option Nat
  | [] => some acc
  | '_' :: c :: rest => if c.isDigit then pyDigitsAux (acc * 10 + digitVal c) rest else none
  | c :: rest => if c.isDigit then pyDigitsAux (acc * 10 + digitVal c) rest else none

/-- Decimal digit run with optional single underscores between digits. -/
def pyDigits : List Char → Option Nat
  | [] => none
  | c :: rest => if c.isDigit then pyDigitsAux (digitVal c) rest else none

def pyStrip (cs : List Char) : List Char :=
  ((cs.dropWhile Char.isWhitespace).reverse.dropWhile Char.isWhitespace).reverse

/-- Python `int(s)` for decimal string input: `some n` on success, `none` when
`int` would raise `ValueError`. -/
def pyParseInt (s : String) : Option Int :=
  match pyStrip s.data with
  | '+' :: rest => (pyDigits rest).map (fun n => (n : Int))
  | '-' :: rest => (pyDigits rest).map (fun n => -(n : Int))
  | cs => (pyDigits cs).map (fun n => (n : Int))

def invalidRateMsg : String := "Rate limit must be a positive integer"

/-- Model of `ArgumentValidator.validate_rate_limit`. -/
def validate_rate_limit (rate : String) : Except String Int :=
  match pyParseInt rate with
  | none => .error invalidRateMsg
  | some n => if n ≤ 0 then .error invalidRateMsg else .ok n

/-! ## Download options (`YouTubeDownloader._get_download_options` lines 271-292) -/

structure DownloadOptions where
  format : String
  noplaylist : Bool
  preferredcodec : String
  preferredquality : String
  writethumbnail : Bool
  writeinfojson : Bool
  ratelimit : Option Int
deriving DecidableEq

/-- The yt-dlp option dictionary built by `_get_download_options`; `ratelimit`
is only added under `if self.rate_limit:`, i.e. when the attribute is neither
`None` nor `0`, and is the KB/s value multiplied by 1024. -/
def get_download_options (skipPlaylist : Bool) (rateLimit : Option Int) (addMetadata : Bool) :
    DownloadOptions :=
  let base : DownloadOptions :=
    { format := "bestaudio/best", noplaylist := skipPlaylist, preferredcodec := "mp3",
      preferredquality := "192", writethumbnail := addMetadata, writeinfojson := addMetadata,
      ratelimit := none }
  match rateLimit with
  | some r => if r ≠ 0 then { base with ratelimit := some (r * 1024) } else base
  | none => base

/-! ## Concrete runs of the coordinator used below

`traceA*` is a single-worker run that drains a two-element queue.
`traceB*` is the two-worker, one-URL run in which both workers pass the
`empty()` test before either calls `get()`: worker 0 claims the only URL and
exits, worker 1 is left blocked inside `get()` forever. -/

def traceA0 : PoolState := initState ["a", "b"] 1
def traceA1 : PoolState := ⟨["a", "b"], [⟨.atClaim, []⟩]⟩
def traceA2 : PoolState := ⟨["b"], [⟨.atCheck, ["a"]⟩]⟩
def traceA3 : PoolState := ⟨["b"], [⟨.atClaim, ["a"]⟩]⟩
def traceA4 : PoolState := ⟨[], [⟨.atCheck, ["b", "a"]⟩]⟩
def traceA5 : PoolState := ⟨[], [⟨.finished, ["b", "a"]⟩]⟩

def traceB0 : PoolState := initState ["u"] 2
def traceB1 : PoolState := ⟨["u"], [⟨.atClaim, []⟩, ⟨.atCheck, []⟩]⟩
def traceB2 : PoolState := ⟨["u"], [⟨.atClaim, []⟩, ⟨.atClaim, []⟩]⟩
def traceB3 : PoolState := ⟨[], [⟨.atCheck, ["u"]⟩, ⟨.atClaim, []⟩]⟩
def traceB4 : PoolState := ⟨[], [⟨.finished, ["u"]⟩, ⟨.atClaim, []⟩]⟩

/-- Concrete extraction outcomes for exercising the download loop: one URL
fails with a `DownloadError`, every other URL succeeds. -/
def c3OutcomeOf : String → ExtractOutcome :=
  fun u => if u = "bad" then .downloadError "network error" else .extracted none

def c3FilenameOf : String → String := fun u => u ++ ".mp3"

def c3FsOf : String → FsState := fun _ => ⟨some emptyTags, none, false⟩

/-! ## Helper lemmas about the coordinator's transition system -/

lemma flatten_replicate_nil {α : Type} (n : Nat) :
    (List.replicate n ([] : List α)).flatten = [] := by
  induction n with
  | zero => rfl
  | succ m ih => simp [List.replicate_succ, ih]

lemma flatten_set_append_perm {α : Type} (xs : List (List α)) (i : Nat) (x y : List α)
    (h : xs[i]? = some x) :
    ((xs.set i y).flatten ++ x).Perm (xs.flatten ++ y) := by
  induction xs generalizing i with
  | nil => simp at h
  | cons a t ih =>
    cases i with
    | zero =>
      simp only [List.getElem?_cons_zero, Option.some.injEq] at h
      subst h
      simp only [List.set_cons_zero, List.flatten_cons]
      rw [List.append_assoc]
      exact List.perm_append_comm.trans (List.Perm.append_right _ List.perm_append_comm)
    | succ j =>
      simp only [List.getElem?_cons_succ] at h
      simp only [List.set_cons_succ, List.flatten_cons]
      rw [List.append_assoc, List.append_assoc]
      exact List.Perm.append_left a (ih j h)

lemma step_some_elim {s s' : PoolState} {i : Nat} (h : step s i = some s') :
    ∃ w q' w', s.workers[i]? = some w ∧ workerStep s.queue w = some (q', w') ∧
      s' = { queue := q', workers := s.workers.set i w' } := by
  unfold step at h
  split at h
  · exact Option.noConfusion h
  · rename_i w hw
    split at h
    · exact Option.noConfusion h
    · rename_i q' w' hws
      exact ⟨w, q', w', hw, hws, (Option.some.injEq _ _ ▸ h).symm⟩

lemma workerStep_atCheck_nil (cl : List String) :
    workerStep [] ⟨.atCheck, cl⟩ = some ([], ⟨.finished, cl⟩) := rfl

lemma workerStep_atCheck_cons (u : String) (rest cl : List String) :
    workerStep (u :: rest) ⟨.atCheck, cl⟩ = some (u :: rest, ⟨.atClaim, cl⟩) := rfl

lemma workerStep_atClaim_nil (cl : List String) :
    workerStep [] ⟨.atClaim, cl⟩ = none := rfl

lemma workerStep_atClaim_cons (u : String) (rest cl : List String) :
    workerStep (u :: rest) ⟨.atClaim, cl⟩ = some (rest, ⟨.atCheck, u :: cl⟩) := rfl

lemma workerStep_finished (q cl : List String) :
    workerStep q ⟨.finished, cl⟩ = none := rfl

lemma workerStep_of_finished {q : List String} {w : Worker} (h : w.pc = .finished) :
    workerStep q w = none := by
  unfold workerStep
  rw [h]

lemma workerStep_of_atClaim_nil {w : Worker} (h : w.pc = .atClaim) :
    workerStep [] w = none := by
  unfold workerStep
  rw [h]

lemma workerStep_none_elim {q : List String} {w : Worker} (h : workerStep q w = none) :
    w.pc = .finished ∨ (w.pc = .atClaim ∧ q = []) := by
  obtain ⟨pc, cl⟩ := w
  cases pc with
  | atCheck =>
    exfalso
    cases q with
    | nil => rw [workerStep_atCheck_nil] at h; exact Option.noConfusion h
    | cons u rest => rw [workerStep_atCheck_cons] at h; exact Option.noConfusion h
  | atClaim =>
    cases q with
    | nil => exact Or.inr ⟨rfl, rfl⟩
    | cons u rest => rw [workerStep_atClaim_cons] at h; exact Option.noConfusion h
  | finished => exact Or.inl rfl

lemma workerStep_some_elim {q : List String} {w : Worker} {q' : List String} {w' : Worker}
    (h : workerStep q w = some (q', w')) :
    (w.pc = .atCheck ∧ q' = q ∧ w'.claimed = w.claimed ∧
      ((q = [] ∧ w'.pc = .finished) ∨ (q ≠ [] ∧ w'.pc = .atClaim))) ∨
    (∃ u rest, w.pc = .atClaim ∧ q = u :: rest ∧ q' = rest ∧
      w'.pc = .atCheck ∧ w'.claimed = u :: w.claimed) := by
  obtain ⟨pc, cl⟩ := w
  cases pc with
  | atCheck =>
    cases q with
    | nil =>
      rw [workerStep_atCheck_nil] at h
      simp only [Option.some.injEq, Prod.mk.injEq] at h
      obtain ⟨rfl, rfl⟩ := h
      exact Or.inl ⟨rfl, rfl, rfl, Or.inl ⟨rfl, rfl⟩⟩
    | cons u rest =>
      rw [workerStep_atCheck_cons] at h
      simp only [Option.some.injEq, Prod.mk.injEq] at h
      obtain ⟨rfl, rfl⟩ := h
      exact Or.inl ⟨rfl, rfl, rfl, Or.inr ⟨fun hx => List.noConfusion hx, rfl⟩⟩
  | atClaim =>
    cases q with
    | nil => rw [workerStep_atClaim_nil] at h; exact Option.noConfusion h
    | cons u rest =>
      rw [workerStep_atClaim_cons] at h
      simp only [Option.some.injEq, Prod.mk.injEq] at h
      obtain ⟨rfl, rfl⟩ := h
      exact Or.inr ⟨u, rest, rfl, rfl, rfl, rfl, rfl⟩
  | finished =>
    rw [workerStep_finished] at h
    exact Option.noConfusion h

lemma steps_queue_claims_perm {s s' : PoolState} (h : Steps s s') :
    (s'.queue ++ allClaimed s').Perm (s.queue ++ allClaimed s) := by
  obtain ⟨i, hi⟩ := h
  obtain ⟨w, q', w', hw, hws, rfl⟩ := step_some_elim hi
  have hx : (s.workers.map Worker.claimed)[i]? = some w.claimed := by
    rw [List.getElem?_map, hw]; rfl
  have hperm := flatten_set_append_perm (s.workers.map Worker.claimed) i w.claimed w'.claimed hx
  simp only [allClaimed, List.map_set]
  rcases workerStep_some_elim hws with ⟨_, rfl, hcl, _⟩ | ⟨u, rest, _, hq, hq', _, hcl⟩
  · apply List.Perm.append_left
    rw [hcl] at hperm ⊢
    exact (List.perm_append_right_iff _).mp hperm
  · rw [hq, hq', hcl]
    rw [hcl] at hperm
    have h1 : ((s.workers.map Worker.claimed).flatten ++ u :: w.claimed).Perm
        ((u :: (s.workers.map Worker.claimed).flatten) ++ w.claimed) := List.perm_middle
    have hJ : (((s.workers.map Worker.claimed).set i (u :: w.claimed)).flatten).Perm
        (u :: (s.workers.map Worker.claimed).flatten) :=
      (List.perm_append_right_iff _).mp (hperm.trans h1)
    exact (List.Perm.append_left rest hJ).trans List.perm_middle

lemma reachable_queue_claims_perm {urls : List String} {n : Nat} {s : PoolState}
    (h : Reachable urls n s) : (s.queue ++ allClaimed s).Perm urls := by
  induction h with
  | refl =>
    unfold initState allClaimed
    simp [flatten_replicate_nil]
  | tail _ hbc ih => exact (steps_queue_claims_perm hbc).trans ih

lemma steps_done_empty {s s' : PoolState} (h : Steps s s')
    (hs : (∃ w ∈ s.workers, w.pc = .finished) → s.queue = []) :
    (∃ w ∈ s'.workers, w.pc = .finished) → s'.queue = [] := by
  obtain ⟨i, hi⟩ := h
  obtain ⟨w, q', w', hw, hws, rfl⟩ := step_some_elim hi
  rintro ⟨v, hv, hvpc⟩
  rcases List.mem_or_eq_of_mem_set hv with hvmem | rfl
  · have hq := hs ⟨v, hvmem, hvpc⟩
    rcases workerStep_some_elim hws with ⟨_, rfl, _, _⟩ | ⟨u, rest, _, hq2, rfl, _, _⟩
    · exact hq
    · rw [hq] at hq2; exact List.noConfusion hq2
  · rcases workerStep_some_elim hws with ⟨_, rfl, _, hcase⟩ | ⟨u, rest, _, _, rfl, hpc', _⟩
    · rcases hcase with ⟨hqnil, _⟩ | ⟨_, hpc'⟩
      · exact hqnil
      · rw [hpc'] at hvpc; exact WStatus.noConfusion hvpc
    · rw [hpc'] at hvpc; exact WStatus.noConfusion hvpc

lemma reachable_done_empty {urls : List String} {n : Nat} {s : PoolState}
    (h : Reachable urls n s) : (∃ w ∈ s.workers, w.pc = .finished) → s.queue = [] := by
  induction h with
  | refl =>
    rintro ⟨v, hv, hvpc⟩
    unfold initState at hv
    simp only [List.mem_replicate] at hv
    rw [hv.2] at hvpc
    exact WStatus.noConfusion hvpc
  | tail _ hbc ih => exact steps_done_empty hbc ih

lemma reachable_workers_len {urls : List String} {n : Nat} {s : PoolState}
    (h : Reachable urls n s) : s.workers.length = n := by
  induction h with
  | refl => simp [initState]
  | tail _ hbc ih =>
    obtain ⟨i, hi⟩ := hbc
    obtain ⟨w, q', w', hw, hws, rfl⟩ := step_some_elim hi
    simpa [List.length_set] using ih

lemma step_none_of_len {s : PoolState} {i : Nat} (h : s.workers.length ≤ i) :
    step s i = none := by
  unfold step
  rw [List.getElem?_eq_none h]

lemma step_of_getElem {s : PoolState} {i : Nat} {w : Worker} (hi : s.workers[i]? = some w) :
    step s i = match workerStep s.queue w with
      | none => none
      | some (q', w') => some { queue := q', workers := s.workers.set i w' } := by
  unfold step
  rw [hi]

lemma terminal_iff (s : PoolState) :
    Terminal s ↔ ∀ w ∈ s.workers, w.pc = .finished ∨ (w.pc = .atClaim ∧ s.queue = []) := by
  constructor
  · intro ht w hw
    obtain ⟨i, hi⟩ := List.mem_iff_getElem?.mp hw
    have hstep := ht i
    rw [step_of_getElem hi] at hstep
    cases hws : workerStep s.queue w with
    | none => exact workerStep_none_elim hws
    | some p =>
      obtain ⟨q', w'⟩ := p
      rw [hws] at hstep
      exact Option.noConfusion hstep
  · intro hall i
    cases hi : s.workers[i]? with
    | none =>
      unfold step
      rw [hi]
    | some w =>
      have hw : w ∈ s.workers := List.mem_iff_getElem?.mpr ⟨i, hi⟩
      rw [step_of_getElem hi]
      rcases hall w hw with hpc | ⟨hpc, hq⟩
      · rw [workerStep_of_finished hpc]
      · rw [hq, workerStep_of_atClaim_nil hpc]

/-! ## Sanity checks of the extractor against the concrete regex behaviour -/

example : extract_from_file "see https://www.youtube.com/watch?v=abc ok" =
    ["https://www.youtube.com/watch?v=abc"] := by decide

example : extract_from_file "https://youtu.be/QQ?t=1 and https://youtu.be/QQ?t=1" =
    ["https://youtu.be/QQ?t=1"] := by decide

/-! ## Claims -/

/-- Claim C1, counterexample: the claim quantifies over every worker count `N`,
but with `N = 0` workers the coordinator is immediately terminal (`start`
spawns no threads and joins none) while the queued URL `"u"` is never claimed,
so a job is left unprocessed. -/
theorem c1_zero_workers_cex :
    Reachable ["u"] 0 (initState ["u"] 0) ∧ Terminal (initState ["u"] 0) ∧
      allClaimed (initState ["u"] 0) = [] ∧ (initState ["u"] 0).queue = ["u"] := by
  refine ⟨Relation.ReflTransGen.refl, ?_, rfl, rfl⟩
  intro i
  apply step_none_of_len
  simp [initState]

/-- Claim C1 (amended to worker count `N ≥ 1`): in every terminal state of every
interleaving of the pool on a batch of distinct queued URLs, the queue is empty,
the multiset of URLs claimed (and hence downloaded) across all workers is
exactly the initial batch, and every URL was claimed exactly once — no URL is
claimed by two workers and none is left unclaimed. -/
theorem c1_exactly_once (urls : List String) (n : Nat) (s : PoolState)
    (hn : 1 ≤ n) (hnd : urls.Nodup) (hr : Reachable urls n s) (ht : Terminal s) :
    s.queue = [] ∧ (allClaimed s).Perm urls ∧
      ∀ u ∈ urls, (allClaimed s).count u = 1 := by
  have hlen : s.workers.length = n := reachable_workers_len hr
  have hqnil : s.queue = [] := by
    have hne : s.workers ≠ [] := by
      intro h0
      rw [h0] at hlen
      simp at hlen
      omega
    obtain ⟨w, hw⟩ := List.exists_mem_of_ne_nil s.workers hne
    rcases (terminal_iff s).mp ht w hw with hfin | ⟨_, hq⟩
    · exact reachable_done_empty hr ⟨w, hw, hfin⟩
    · exact hq
  have hperm : (allClaimed s).Perm urls := by
    have hp := reachable_queue_claims_perm hr
    rw [hqnil] at hp
    simpa using hp
  refine ⟨hqnil, hperm, fun u hu => ?_⟩
  rw [hperm.count_eq u]
  exact List.count_eq_one_of_mem hnd hu

/-- Claim C1, witness: a single worker drains the queue `["a", "b"]`; in the
resulting terminal state both URLs were claimed exactly once. -/
theorem c1_exactly_once_witness :
    (1 ≤ 1 ∧ (["a", "b"] : List String).Nodup ∧ Reachable ["a", "b"] 1 traceA5 ∧
      Terminal traceA5) ∧
    (traceA5.queue = [] ∧ (allClaimed traceA5).Perm ["a", "b"] ∧
      ∀ u ∈ (["a", "b"] : List String), (allClaimed traceA5).count u = 1) := by
  have h01 : Steps traceA0 traceA1 := ⟨0, rfl⟩
  have h12 : Steps traceA1 traceA2 := ⟨0, rfl⟩
  have h23 : Steps traceA2 traceA3 := ⟨0, rfl⟩
  have h34 : Steps traceA3 traceA4 := ⟨0, rfl⟩
  have h45 : Steps traceA4 traceA5 := ⟨0, rfl⟩
  have hreach : Reachable ["a", "b"] 1 traceA5 :=
    .tail (.tail (.tail (.tail (.tail .refl h01) h12) h23) h34) h45
  have hterm : Terminal traceA5 := by
    intro i
    match i with
    | 0 => rfl
    | j + 1 =>
      apply step_none_of_len
      show 1 ≤ j + 1
      omega
  exact ⟨⟨le_refl 1, by decide, hreach, hterm⟩,
    c1_exactly_once ["a", "b"] 1 traceA5 (le_refl 1) (by decide) hreach hterm⟩

/-- Claim C2 (code bug exhibit): with 2 workers and 1 queued URL there is a
reachable, terminal state (`traceB4`) in which worker 1 sits at the blocking
`get()` with the queue empty: both workers passed the `empty()` test, worker 0
then claimed the only URL and exited, and worker 1 is blocked inside
`url_queue.get()` forever — it never terminates, and `start()` never returns
from `thread.join()`.  This contradicts the claim (and the spec's intent) that
a worker finding the queue empty exits rather than waiting. -/
theorem c2_worker_blocks :
    Reachable ["u"] 2 traceB4 ∧ Terminal traceB4 ∧
      traceB4.workers[1]? = some ⟨.atClaim, []⟩ ∧ traceB4.queue = [] := by
  have h01 : Steps traceB0 traceB1 := ⟨0, rfl⟩
  have h12 : Steps traceB1 traceB2 := ⟨1, rfl⟩
  have h23 : Steps traceB2 traceB3 := ⟨0, rfl⟩
  have h34 : Steps traceB3 traceB4 := ⟨0, rfl⟩
  have hreach : Reachable ["u"] 2 traceB4 :=
    .tail (.tail (.tail (.tail .refl h01) h12) h23) h34
  have hterm : Terminal traceB4 := by
    intro i
    match i with
    | 0 => rfl
    | 1 => rfl
    | j + 2 =>
      apply step_none_of_len
      show 2 ≤ j + 2
      omega
  exact ⟨hreach, hterm, rfl, rfl⟩

/-- Claim C3: when the extraction step raises a download-specific error
(`yt_dlp.utils.DownloadError`), `download` returns `False` rather than
propagating; on success (any returned info record, including `None`) it
returns `True`; and the sequential batch loop produces a result for every
queued URL in order — it continues past failures instead of halting. -/
theorem c3_download_error_nonfatal (outcomeOf : String → ExtractOutcome) (addMeta : Bool)
    (filenameOf : String → String) (fsOf : String → FsState) (urls : List String) :
    (∀ u msg, outcomeOf u = .downloadError msg →
      (download (outcomeOf u) addMeta (filenameOf u) (fsOf u)).1 = false) ∧
    (∀ u info, outcomeOf u = .extracted info →
      (download (outcomeOf u) addMeta (filenameOf u) (fsOf u)).1 = true) ∧
    (processFileSeq outcomeOf addMeta filenameOf fsOf urls).length = urls.length ∧
    (∀ i : Nat, (processFileSeq outcomeOf addMeta filenameOf fsOf urls)[i]? =
      (urls[i]?).map (fun u => (download (outcomeOf u) addMeta (filenameOf u) (fsOf u)).1)) := by
  refine ⟨?_, ?_, ?_, ?_⟩
  · intro u msg h
    rw [h]
    rfl
  · intro u info h
    rw [h]
    cases info <;> rfl
  · simp [processFileSeq]
  · intro i
    simp [processFileSeq, List.getElem?_map]

/-- Claim C3, witness: in the batch `["ok", "bad"]` the URL `"bad"` raises a
`DownloadError` and yields `False`, `"ok"` yields `True`, and the loop still
processes both URLs. -/
theorem c3_download_error_nonfatal_witness :
    (download (c3OutcomeOf "bad") true (c3FilenameOf "bad") (c3FsOf "bad")).1 = false ∧
    (download (c3OutcomeOf "ok") true (c3FilenameOf "ok") (c3FsOf "ok")).1 = true ∧
    (processFileSeq c3OutcomeOf true c3FilenameOf c3FsOf ["ok", "bad"]).length = 2 ∧
    (processFileSeq c3OutcomeOf true c3FilenameOf c3FsOf ["ok", "bad"])[1]? = some false := by
  have h := c3_download_error_nonfatal c3OutcomeOf true c3FilenameOf c3FsOf ["ok", "bad"]
  refine ⟨h.1 "bad" "network error" (by decide), h.2.1 "ok" none (by decide), ?_, ?_⟩
  · rw [h.2.2.1]
    rfl
  · rw [h.2.2.2 1]
    rfl

/-- Claim C4, counterexample: a batch input whose text yields no qualifying
URLs makes `_process_file` log an error and return normally, so `main` raises
nothing and the process exits 0 — not non-zero as the claim states. -/
theorem c4_empty_batch_exit_cex :
    extract_from_file "no links in this file" = [] ∧
    processFileRun "no links in this file" 2 = .noUrlsFound ∧
    mainExitCode (fileRunEvent "no links in this file" 2) = 0 := by
  refine ⟨by decide, by decide, rfl⟩

/-- Claim C4 (amended): the process exits 0 on normal completion of a batch
run regardless of per-URL failures, and also exits 0 when the batch file
yields no qualifying URLs (that case is logged and no downloads run, but it is
not an uncaught error); non-zero exits happen only on interrupt or an uncaught
exception. -/
theorem c4_exit_codes (content : String) (threads : Int) (msg : String) :
    mainExitCode (fileRunEvent content threads) = 0 ∧
    (extract_from_file content = [] → processFileRun content threads = .noUrlsFound) ∧
    mainExitCode .interrupted = 1 ∧ mainExitCode (.uncaught msg) = 1 := by
  refine ⟨?_, ?_, rfl, rfl⟩
  · unfold fileRunEvent
    cases processFileRun content threads <;> rfl
  · intro h
    simp [processFileRun, h]

/-- Claim C4, witness: concrete no-URL batch content exits 0. -/
theorem c4_exit_codes_witness :
    extract_from_file "nothing here" = [] ∧
    processFileRun "nothing here" 3 = .noUrlsFound ∧
    mainExitCode (fileRunEvent "nothing here" 3) = 0 := by
  have h := c4_exit_codes "nothing here" 3 "boom"
  exact ⟨by decide, h.2.1 (by decide), h.1⟩

/-- Claim C5: for every text input, the extractor's result has no duplicate
entries, every entry contains the platform-identifying substring `'youtu'`,
and if no regex match in the input contains `'youtu'` the result is empty. -/
theorem c5_extractor (content : String) :
    (extract_from_file content).Nodup ∧
    (∀ u ∈ extract_from_file content, containsSub youtuChars u.data = true) ∧
    ((∀ m ∈ finditer content.data, containsSub youtuChars m = false) →
      extract_from_file content = []) := by
  refine ⟨List.nodup_dedup _, ?_, ?_⟩
  · intro u hu
    rw [extract_from_file, List.mem_dedup] at hu
    obtain ⟨m, hm, rfl⟩ := List.mem_map.mp hu
    exact (List.mem_filter.mp hm).2
  · intro h
    unfold extract_from_file
    have hf : (finditer content.data).filter (fun m => containsSub youtuChars m) = [] := by
      apply List.filter_eq_nil_iff.mpr
      intro m hm
      rw [h m hm]
      simp
    rw [hf]
    rfl

/-- Claim C5, witness: a file containing a URL of a different platform and no
`youtu` URL yields the empty set. -/
theorem c5_extractor_witness :
    (∀ m ∈ finditer "visit https://example.com today".data,
      containsSub youtuChars m = false) ∧
    extract_from_file "visit https://example.com today" = [] := by
  have hm : ∀ m ∈ finditer "visit https://example.com today".data,
      containsSub youtuChars m = false := by decide
  exact ⟨hm, (c5_extractor "visit https://example.com today").2.2 hm⟩

/-- Claim C6: for an existing MP3 with no prior tags, the post-processor with
title "My Song" and uploader "Example Channel" produces TIT2 = "My Song" and
TPE1 = "Example Channel" (and the default album); with no sidecar thumbnail
no APIC frame is added, the sidecars stay deleted, and the outcome is `ok`
(no error is raised). -/
theorem c6_metadata_tags :
    process_metadata true ⟨some "My Song", some "Example Channel", none⟩ "track.mp3"
      ⟨some emptyTags, none, false⟩ =
    (⟨some ⟨some "My Song", some "Example Channel", some "YouTube to MP3", none⟩,
      none, false⟩, .ok) := rfl

/-- Claim C7: a thread count `N ≤ 1` takes the sequential path (no pool is
created) and a thread count `N > 1` creates a `ThreadedDownloader` whose
`start` spawns exactly `N` worker threads. -/
theorem c7_thread_modes (threads : Int) (urls : List String) :
    (threads ≤ 1 → chooseBatchMode threads = .singleThreaded) ∧
    (1 < threads → chooseBatchMode threads = .threadedPool threads.toNat ∧
      (initState urls threads.toNat).workers.length = threads.toNat) := by
  constructor
  · intro h
    unfold chooseBatchMode
    rw [if_neg (not_lt.mpr h)]
  · intro h
    refine ⟨?_, ?_⟩
    · unfold chooseBatchMode
      rw [if_pos h]
    · simp [initState]

/-- Claim C7, witness: 3 threads create a pool of exactly 3 workers; 1 thread
stays sequential. -/
theorem c7_thread_modes_witness :
    chooseBatchMode 3 = .threadedPool 3 ∧ (initState ["x"] 3).workers.length = 3 ∧
    chooseBatchMode 1 = .singleThreaded := by
  have h3 := (c7_thread_modes 3 ["x"]).2 (by decide)
  have h1 := (c7_thread_modes 1 ["x"]).1 (by decide)
  exact ⟨h3.1, h3.2, h1⟩

/-- Claim C8: the rate-limit validator returns the parsed integer exactly when
the input parses (via Python `int`) as a positive integer, and produces the
invalid-rate error when the input is non-numeric, zero, or negative. -/
theorem c8_rate_limit (rate : String) :
    (∀ n : Int, pyParseInt rate = some n → 0 < n →
      validate_rate_limit rate = .ok n) ∧
    (∀ n : Int, pyParseInt rate = some n → n ≤ 0 →
      validate_rate_limit rate = .error invalidRateMsg) ∧
    (pyParseInt rate = none → validate_rate_limit rate = .error invalidRateMsg) := by
  refine ⟨?_, ?_, ?_⟩
  · intro n h hpos
    simp only [validate_rate_limit, h]
    rw [if_neg (not_le.mpr hpos)]
  · intro n h hle
    simp only [validate_rate_limit, h]
    rw [if_pos hle]
  · intro h
    simp only [validate_rate_limit, h]

/-- Claim C8, witness: "42" validates to 42; "-3", and the non-numeric "abc",
raise the invalid-rate error. -/
theorem c8_rate_limit_witness :
    (pyParseInt "42" = some 42 ∧ validate_rate_limit "42" = .ok 42) ∧
    (pyParseInt "-3" = some (-3) ∧ validate_rate_limit "-3" = .error invalidRateMsg) ∧
    (pyParseInt "abc" = none ∧ validate_rate_limit "abc" = .error invalidRateMsg) := by
  have ha := c8_rate_limit "42"
  have hb := c8_rate_limit "-3"
  have hc := c8_rate_limit "abc"
  exact ⟨⟨by decide, ha.1 42 (by decide) (by decide)⟩,
    ⟨by decide, hb.2.1 (-3) (by decide) (by decide)⟩,
    ⟨by decide, hc.2.2 (by decide)⟩⟩

/-- Claim C9, counterexample: the fallback defaults apply only when a field is
absent from the info record.  An info record whose `uploader` is present but
empty produces TPE1 = "" — an empty artist frame — so it is not the case that
every tagged MP3 carries non-empty TIT2/TPE1/TALB frames. -/
theorem c9_empty_uploader_cex :
    (process_metadata true ⟨some "T", some "", none⟩ "track.mp3"
      ⟨some emptyTags, none, false⟩).1.mp3 =
      some ⟨some "T", some "", some "YouTube to MP3", none⟩ ∧
    ("" : String).length = 0 := ⟨rfl, rfl⟩

/-- Claim C9 (amended): when the info record lacks an uploader or album field
the processor falls back to artist "YouTube" and album "YouTube to MP3" (both
non-empty), and when it lacks a title it falls back to the output file's base
name; the written frames carry exactly the (possibly empty) present values
otherwise. -/
theorem c9_fallbacks (info : InfoDict) (fs0 : FsState) (tags : ID3Tags) (filename : String)
    (hmp3 : fs0.mp3 = some tags) :
    ∃ t, (process_metadata true info filename fs0).1.mp3 = some t ∧
      t.tit2 = some (info.title.getD (basename (splitextRoot filename))) ∧
      t.tpe1 = some (info.uploader.getD "YouTube") ∧
      t.talb = some (info.album.getD "YouTube to MP3") ∧
      (info.uploader = none → t.tpe1 = some "YouTube" ∧ "YouTube" ≠ "") ∧
      (info.album = none → t.talb = some "YouTube to MP3" ∧ "YouTube to MP3" ≠ "") ∧
      (info.title = none → t.tit2 = some (basename (splitextRoot filename))) := by
  unfold process_metadata
  rw [hmp3]
  cases hthumb : fs0.thumb with
  | some data =>
    refine ⟨_, rfl, rfl, rfl, rfl, fun h => ?_, fun h => ?_, fun h => ?_⟩ <;> rw [h]
    · exact ⟨rfl, by decide⟩
    · exact ⟨rfl, by decide⟩
    · rfl
  | none =>
    refine ⟨_, rfl, rfl, rfl, rfl, fun h => ?_, fun h => ?_, fun h => ?_⟩ <;> rw [h]
    · exact ⟨rfl, by decide⟩
    · exact ⟨rfl, by decide⟩
    · rfl

/-- Claim C9, witness: an info record with all fields absent, tagged onto
`out/My Video.mp3`, yields TPE1 = "YouTube", TALB = "YouTube to MP3" and
TIT2 = "My Video" (the base name). -/
theorem c9_fallbacks_witness :
    (FsState.mp3 ⟨some emptyTags, none, false⟩ = some emptyTags) ∧
    basename (splitextRoot "out/My Video.mp3") = "My Video" ∧
    ∃ t, (process_metadata true ⟨none, none, none⟩ "out/My Video.mp3"
        ⟨some emptyTags, none, false⟩).1.mp3 = some t ∧
      t.tit2 = some ((none : Option String).getD
        (basename (splitextRoot "out/My Video.mp3"))) ∧
      t.tpe1 = some ((none : Option String).getD "YouTube") ∧
      t.talb = some ((none : Option String).getD "YouTube to MP3") ∧
      ((none : Option String) = none → t.tpe1 = some "YouTube" ∧ "YouTube" ≠ "") ∧
      ((none : Option String) = none →
        t.talb = some "YouTube to MP3" ∧ "YouTube to MP3" ≠ "") ∧
      ((none : Option String) = none →
        t.tit2 = some (basename (splitextRoot "out/My Video.mp3"))) :=
  ⟨rfl, by decide, c9_fallbacks ⟨none, none, none⟩ ⟨some emptyTags, none, false⟩ emptyTags
    "out/My Video.mp3" rfl⟩

/-- Claim C10: a positive rate limit `R` (KB/s) is passed to the extraction
library as exactly `R * 1024` bytes per second, and no rate-limit option is
set when the rate limit is absent. -/
theorem c10_ratelimit_option (skipPlaylist addMeta : Bool) (r : Int) :
    (0 < r → (get_download_options skipPlaylist (some r) addMeta).ratelimit =
      some (r * 1024)) ∧
    (get_download_options skipPlaylist none addMeta).ratelimit = none := by
  refine ⟨?_, rfl⟩
  intro hr
  have hne : r ≠ 0 := by omega
  simp [get_download_options, hne]

/-- Claim C10, witness: a 50 KB/s rate limit becomes 51200 bytes per second. -/
theorem c10_ratelimit_option_witness :
    (get_download_options true (some 50) true).ratelimit = some 51200 ∧
    (get_download_options true none true).ratelimit = none := by
  have h := c10_ratelimit_option true true 50
  exact ⟨h.1 (by decide), h.2⟩

end Y2MP3
